import Mathlib

/-!
Verification development for the `routing-controllers-openapi-extra`
repository.  The definitions below are a shallow embedding of the
TypeScript/JavaScript sources:

* `src/files.ts` — `parseFileSize` and the validation middleware installed by
  `UseMulter` (the callback passed to `UseBefore`, lines 161–242);
* `output/files.js` — the shipped build of the same middleware, whose MIME
  check additionally accepts plain strings and compiles them with
  `new RegExp(item)` (lines 184–192);
* `src/decorators.ts` — `AsyncResolver` and the promise handling of
  `IsEntity`;
* `utils` — `toSlug`.

JavaScript-specific behaviour is embedded explicitly: truthiness of option
values, `NaN` comparisons (a `NaN` numeric bound is modelled as `Option.none`
and every `<`/`>` comparison against it is `false`), `parseInt`'s
leading-digit parse, and the `bytes` npm package's `parse` function (modelled
from its published source, v3.1.x: a full-string regex for `<number> <unit>`
with binary multipliers, falling back to `parseInt(val, 10)`).
-/

namespace RCExtra

/-! ## Characters and small string utilities -/

/-- ASCII decimal digit. -/
def isDigitC (c : Char) : Bool := 48 ≤ c.toNat && c.toNat ≤ 57

/-- ASCII lowercase letter (the range matched by the regex class `a-z`). -/
def isLowerC (c : Char) : Bool := 97 ≤ c.toNat && c.toNat ≤ 122

/-- ASCII uppercase letter (the range matched by the regex class `A-Z`). -/
def isUpperC (c : Char) : Bool := 65 ≤ c.toNat && c.toNat ≤ 90

/-- The character class `[a-zA-Z0-9_.]` used by `toSlug`'s third replace. -/
def allowedChar (c : Char) : Bool :=
  isLowerC c || isUpperC c || isDigitC c || c.toNat == 95 || c.toNat == 46

/-- JavaScript WhiteSpace/LineTerminator code points (as removed by
`String.prototype.trim` and skipped by `parseInt`). -/
def wsChar (c : Char) : Bool :=
  c.toNat == 0x9 || c.toNat == 0xA || c.toNat == 0xB || c.toNat == 0xC ||
  c.toNat == 0xD || c.toNat == 0x20 || c.toNat == 0xA0 || c.toNat == 0x1680 ||
  (0x2000 ≤ c.toNat && c.toNat ≤ 0x200A) || c.toNat == 0x2028 ||
  c.toNat == 0x2029 || c.toNat == 0x202F || c.toNat == 0x205F ||
  c.toNat == 0x3000 || c.toNat == 0xFEFF

/-- ASCII uppercasing, as `String.prototype.toUpperCase` acts on the ASCII
range (in `toSlug` the uppercasing step only ever receives characters from
`[a-zA-Z0-9_.]`, so the ASCII fragment is the relevant one). -/
def toUpperC (c : Char) : Char :=
  if isLowerC c then Char.ofNat (c.toNat - 32) else c

/-- `leadsWith p l` is true when `p` is an initial segment of `l`. -/
def leadsWith : List Char → List Char → Bool
  | [], _ => true
  | _ :: _, [] => false
  | a :: as, b :: bs => a == b && leadsWith as bs

/-- `containsSub p l`: `p` occurs contiguously somewhere inside `l`.  This is
the matching semantics of an **un-anchored** JavaScript regular expression
built from a literal free of regex metacharacters: `new RegExp(p).test(l)`
searches for `p` anywhere in `l`. -/
def containsSub (p : List Char) : List Char → Bool
  | [] => leadsWith p []
  | c :: rest => leadsWith p (c :: rest) || containsSub p rest

/-! ## The `bytes` npm package (dependency model)

`parseFileSize` calls `bytes(value)`.  For a string argument `bytes` runs its
`parse` function:

```js
var parseRegExp = /^((-|\+)?(\d+(?:\.\d+)?)) *(kb|mb|gb|tb|pb)$/i;
var results = parseRegExp.exec(val);
if (!results) { floatValue = parseInt(val, 10); unit = 'b'; }
else { floatValue = parseFloat(results[1]); unit = results[4].toLowerCase(); }
if (isNaN(floatValue)) return null;
return Math.floor(map[unit] * floatValue);
```

with `map = {b:1, kb:2^10, mb:2^20, gb:2^30, tb:2^40, pb:2^50}`.  `null` and
`NaN` are both modelled as `Option.none`; `Math.floor` of the exact rational
value is `Int.fdiv`. -/

/-- Accumulate a run of leading decimal digits (value and count), returning
the remaining characters. -/
def takeDigits : List Char → Nat × Nat × List Char
  | [] => (0, 0, [])
  | c :: rest =>
    if isDigitC c then
      let (v, n, r) := takeDigits rest
      ((c.toNat - 48) * 10 ^ n + v, n + 1, r)
    else (0, 0, c :: rest)

/-- `digits? l` consumes one-or-more digits (`\d+`); `none` if `l` does not
start with a digit.  Returns the numeric value, the digit count, and the
rest. -/
def digitsQ (l : List Char) : Option (Nat × Nat × List Char) :=
  match l with
  | [] => none
  | c :: _ =>
    if isDigitC c then some (takeDigits l) else none

/-- Binary multiplier for a (lowercased) two-letter unit from the `bytes`
regex alternatives `kb|mb|gb|tb|pb`. -/
def unitMult (u1 u2 : Char) : Option Int :=
  if u2.toLower == 'b' then
    if u1.toLower == 'k' then some (2 ^ 10)
    else if u1.toLower == 'm' then some (2 ^ 20)
    else if u1.toLower == 'g' then some (2 ^ 30)
    else if u1.toLower == 't' then some (2 ^ 40)
    else if u1.toLower == 'p' then some (2 ^ 50)
    else none
  else none

/-- The full-string regex path of `bytes.parse`:
`^((-|\+)?(\d+(?:\.\d+)?)) *(kb|mb|gb|tb|pb)$` (case-insensitive), producing
`Math.floor(mult * signedValue)`. -/
def bytesRegexParse (l : List Char) : Option Int :=
  let (sgn, l1) : Int × List Char :=
    match l with
    | '-' :: r => (-1, r)
    | '+' :: r => (1, r)
    | _ => (1, l)
  match digitsQ l1 with
  | none => none
  | some (ip, _, l2) =>
    let frac : Option (Nat × Nat × List Char) :=
      match l2 with
      | '.' :: r => digitsQ r
      | _ => some (0, 0, l2)
    match frac with
    | none => none
    | some (fp, k, l3) =>
      match l3.dropWhile (fun c => c == ' ') with
      | [u1, u2] =>
        match unitMult u1 u2 with
        | some mult => some (Int.fdiv (mult * (sgn * (ip * 10 ^ k + fp))) (10 ^ k))
        | none => none
      | _ => none

/-- JavaScript `parseInt(s, 10)`: skip whitespace, optional sign, then a run
of leading digits (ignoring any trailing junk); `NaN` (here `none`) if no
digit is found. -/
def parseIntLeading (l : List Char) : Option Int :=
  let l1 := l.dropWhile wsChar
  let (sgn, l2) : Int × List Char :=
    match l1 with
    | '-' :: r => (-1, r)
    | '+' :: r => (1, r)
    | _ => (1, l1)
  match digitsQ l2 with
  | none => none
  | some (v, _, _) => some (sgn * v)

/-- `bytes(s)` for a string argument (`null`/`NaN` ↦ `none`). -/
def bytesParse (s : String) : Option Int :=
  match bytesRegexParse s.data with
  | some v => some v
  | none => parseIntLeading s.data

/-! ## Data model -/

/-- A size bound as accepted by `parseFileSize` (`string | number`). -/
inductive SizeVal where
  | num (n : Int)
  | str (s : String)
deriving DecidableEq

/-- JavaScript truthiness of a size bound (`0` and `""` are falsy). -/
def SizeVal.truthy : SizeVal → Bool
  | .num n => n != 0
  | .str s => s != ""

/-- How a size bound prints inside a template literal. -/
def SizeVal.render : SizeVal → String
  | .num n => toString n
  | .str s => s

/--
`parseFileSize` (src/files.ts lines 11–16):

```ts
export function parseFileSize(value: string | number): number {
    if (typeof value === "number") { return value; }
    return parseFloat(bytes(value as any));
}
```

A number is returned unchanged; a string goes through `bytes`, and
`parseFloat(null)` is `NaN`, modelled as `none`. -/
def parseFileSize : SizeVal → Option Int
  | .num n => some n
  | .str s => bytesParse s

/-- One uploaded file as seen by the validator (`Express.Multer.File`):
only the fields the middleware reads. -/
structure UploadedFile where
  originalname : String
  mimetype : String
  size : Int
deriving DecidableEq

/-- An allowed MIME pattern.  In `src/files.ts` the option is typed
`RegExp[]` (constructor `re`, carrying the regex's match function and its
`toString()` rendering); the shipped `output/files.js` additionally accepts a
plain string `item` and compiles it with `new RegExp(item)` (constructor
`lit`; for a literal free of regex metacharacters the compiled, un-anchored
regex matches exactly when the literal occurs as a substring). -/
inductive MimePattern where
  | re (fTest : String → Bool) (srcStr : String)
  | lit (s : String)

/-- Escape `/` when a string literal is printed back via
`new RegExp(item).toString()`. -/
def escapeSlashes (s : String) : String :=
  ⟨s.data.flatMap (fun c => if c == '/' then ['\\', '/'] else [c])⟩

/-- `regex.test(mime)` for a pattern. -/
def MimePattern.test : MimePattern → String → Bool
  | .re f _, m => f m
  | .lit s, m => containsSub s.data m.data

/-- `item.toString()` (for `lit`, the rendering of `new RegExp(item)`). -/
def MimePattern.render : MimePattern → String
  | .re _ src => src
  | .lit s => "/" ++ escapeSlashes s ++ "/"

/-- `FileFieldOptions` (src/files.ts lines 18–26).  Absent optional members
are `none`; `required` is the boolean truthiness of the
`required`/`isRequired` member. -/
structure FileFieldOptions where
  fieldName : Option String := none
  required : Bool := false
  maxSize : Option SizeVal := none
  minSize : Option SizeVal := none
  maxFiles : Option Nat := none
  minFiles : Option Nat := none
  mimeTypes : Option (List MimePattern) := none

/-- `FileFieldMetadata` (src/files.ts lines 31–35). -/
structure FileFieldMetadata where
  propertyKey : String
  isArray : Bool
  options : FileFieldOptions

/-- `meta.options.fieldName || meta.propertyKey` (an empty string is falsy). -/
def fieldNameOf (meta : FileFieldMetadata) : String :=
  match meta.options.fieldName with
  | some s => if s == "" then meta.propertyKey else s
  | none => meta.propertyKey

/-! ## The request's file container

`req.files` maps a field name to: the parser's raw array of files, a single
file (after the scalar write-back `req.files[fieldName] = files[0]`), or
`undefined` (missing key, or after `req.files[fieldName] = undefined`). -/

/-- A value stored under one key of `req.files`. -/
inductive FieldValue where
  | files (fs : List UploadedFile)
  | single (f : UploadedFile)
  | absent
deriving DecidableEq

/-- The `req.files` object: an association list with unique keys (property
lookup and property assignment). -/
def FileMap := List (String × FieldValue)

instance : DecidableEq FileMap := by
  unfold FileMap
  infer_instance

/-- Property read: `req.files[k]` (`undefined` when the key is missing). -/
def FileMap.get : FileMap → String → FieldValue
  | [], _ => .absent
  | (k', v') :: rest, k => if k' == k then v' else FileMap.get rest k

/-- Property write: `req.files[k] = v`. -/
def FileMap.set : FileMap → String → FieldValue → FileMap
  | [], k, v => [(k, v)]
  | (k', v') :: rest, k, v =>
    if k' == k then (k, v) :: rest else (k', v') :: FileMap.set rest k v

/-- Raw parser output: every stored value is a (possibly empty) file array. -/
def FileMap.allRaw (m : FileMap) : Bool :=
  m.all (fun p => match p.2 with | .files _ => true | _ => false)

/-- `true` unless the value is a written-back single file. -/
def FieldValue.notSingle : FieldValue → Bool
  | .single _ => false
  | _ => true

/-- The list of files a value denotes (`absent` counts as zero files). -/
def FieldValue.filesList : FieldValue → List UploadedFile
  | .files fs => fs
  | .single f => [f]
  | .absent => []

/-! ## The validation middleware of `UseMulter`

Direct translation of the callback passed to `UseBefore` in
`src/files.ts` lines 161–242 (identical control flow in
`output/files.js` lines 132–196).  Each numbered source block becomes one
definition; `return next(new Error(msg))` becomes `some msg`, falling through
to `next()` becomes `none`. -/

/-- Truthiness of an optional numeric count (`undefined` and `0` falsy). -/
def natTruthy : Option Nat → Bool
  | some n => n != 0
  | none => false

/-- Truthiness of an optional size bound. -/
def sizeTruthy : Option SizeVal → Bool
  | some v => v.truthy
  | none => false

/-- `a < b` where `b` may be `NaN` (`none`): any comparison with `NaN` is
`false`. -/
def ltNan (a : Int) (b : Option Int) : Bool :=
  match b with
  | some b' => a < b'
  | none => false

/-- `a > b` where `b` may be `NaN`. -/
def gtNan (a : Int) (b : Option Int) : Bool :=
  match b with
  | some b' => b' < a
  | none => false

/-- `if (meta.options.minSize) { ... if (file.size < minSizeBytes) ... }`
(lines 207–216). -/
def minSizeError (opts : FileFieldOptions) (file : UploadedFile) : Option String :=
  match opts.minSize with
  | some v =>
    if v.truthy then
      if ltNan file.size (parseFileSize v) then
        some ("File " ++ file.originalname ++ " is too small. Minimum size is "
          ++ v.render ++ ".")
      else none
    else none
  | none => none

/-- `if (meta.options.maxSize) { ... if (file.size > maxSizeBytes) ... }`
(lines 217–226). -/
def maxSizeError (opts : FileFieldOptions) (file : UploadedFile) : Option String :=
  match opts.maxSize with
  | some v =>
    if v.truthy then
      if gtNan file.size (parseFileSize v) then
        some ("File " ++ file.originalname ++ " is too large. Maximum size is "
          ++ v.render ++ ".")
      else none
    else none
  | none => none

/-- `if (meta.options.mimeTypes && meta.options.mimeTypes.length > 0) ...`
(lines 227–238): pass iff some pattern's regex matches the declared MIME
type. -/
def mimeError (opts : FileFieldOptions) (file : UploadedFile) : Option String :=
  match opts.mimeTypes with
  | some pats =>
    if pats.length > 0 then
      if pats.any (fun p => p.test file.mimetype) then none
      else
        some ("File " ++ file.originalname ++ " has invalid type ("
          ++ file.mimetype ++ "). Allowed: "
          ++ String.intercalate ", " (pats.map MimePattern.render) ++ ".")
    else none
  | none => none

/-- Body of `for (const file of files)` (lines 206–239): min-size, then
max-size, then MIME, first hit wins. -/
def fileError (opts : FileFieldOptions) (file : UploadedFile) : Option String :=
  match minSizeError opts file with
  | some e => some e
  | none =>
    match maxSizeError opts file with
    | some e => some e
    | none => mimeError opts file

/-- The whole `for (const file of files)` loop: first failing file, in file
order, aborts. -/
def filesError (opts : FileFieldOptions) : List UploadedFile → Option String
  | [] => none
  | f :: fs =>
    match fileError opts f with
    | some e => some e
    | none => filesError opts fs

/-- `if (meta.options.minFiles && files.length < meta.options.minFiles)`
(lines 184–190). -/
def minFilesError (opts : FileFieldOptions) (count : Nat) (fieldName : String) :
    Option String :=
  match opts.minFiles with
  | some n =>
    if n != 0 && count < n then
      some ("Too few files uploaded for '" ++ fieldName ++ "'. Minimum number: "
        ++ toString n ++ ".")
    else none
  | none => none

/-- `if (meta.options.maxFiles && files.length > meta.options.maxFiles)`
(lines 191–197). -/
def maxFilesError (opts : FileFieldOptions) (count : Nat) (fieldName : String) :
    Option String :=
  match opts.maxFiles with
  | some n =>
    if n != 0 && n < count then
      some ("Too many files uploaded for '" ++ fieldName ++ "'. Maximum number: "
        ++ toString n ++ ".")
    else none
  | none => none

/-- The array-field cardinality block (lines 183–197): min bound first, then
max bound. -/
def cardError (opts : FileFieldOptions) (count : Nat) (fieldName : String) :
    Option String :=
  match minFilesError opts count fieldName with
  | some e => some e
  | none => maxFilesError opts count fieldName

/-- One iteration of `for (const meta of fileFields)` (lines 166–240):
returns the updated `req.files` and `some msg` when the iteration ran
`return next(new Error(msg))`.

* a missing or empty entry: reject when `required`, else write the
  normalized empty shape and continue;
* an array entry with files: cardinality checks, then the per-file loop
  (the entry itself is left as the raw array);
* a scalar entry with files: `req.files[fieldName] = files[0]` first, then
  the per-file loop still ranges over the **original** `files` array;
* a written-back single file (only reachable when two declared fields share
  one name): `files.length` is `undefined`, so every guard is skipped and
  `for (const file of files)` throws — modelled as the thrown `TypeError`. -/
def stepField (meta : FileFieldMetadata) (m : FileMap) : FileMap × Option String :=
  let fieldName := fieldNameOf meta
  match m.get fieldName with
  | .absent =>
    if meta.options.required then
      (m, some ("No files uploaded for field: " ++ fieldName))
    else if meta.isArray then (m.set fieldName (.files []), none)
    else (m.set fieldName .absent, none)
  | .files [] =>
    if meta.options.required then
      (m, some ("No files uploaded for field: " ++ fieldName))
    else if meta.isArray then (m.set fieldName (.files []), none)
    else (m.set fieldName .absent, none)
  | .files (f :: fs) =>
    if meta.isArray then
      match cardError meta.options (f :: fs).length fieldName with
      | some e => (m, some e)
      | none => (m, filesError meta.options (f :: fs))
    else
      (m.set fieldName (.single f), filesError meta.options (f :: fs))
  | .single _ => (m, some "TypeError: files is not iterable")

/-- `for (const meta of fileFields)`: process declared fields in declaration
order, aborting on the first `next(err)`. -/
def runFields : List FileFieldMetadata → FileMap → FileMap × Option String
  | [], m => (m, none)
  | meta :: rest, m =>
    match stepField meta m with
    | (m', some e) => (m', some e)
    | (m', none) => runFields rest m'

/-- The complete post-parse callback (lines 163–241) on a request whose
multipart parse succeeded: `if (!req.files) return next();` — an absent
container skips validation entirely; otherwise the field loop runs and the
pair (final `req.files`, outcome) is produced (`none` = `next()` accepted,
`some msg` = `next(new Error(msg))`). -/
def useMulterValidate (fields : List FileFieldMetadata) (reqFiles : Option FileMap) :
    Option FileMap × Option String :=
  match reqFiles with
  | none => (none, none)
  | some m =>
    match runFields fields m with
    | (m', e) => (some m', e)

/-! ## Spec-side reference definitions -/

/-- Modelled from the spec: the per-field rule list in the claimed order —
missing-required; for an array field the cardinality bounds (min before
max); then, per retained file in file order, size-min, size-max, MIME. -/
def fieldViolation (meta : FileFieldMetadata) (fs : List UploadedFile) :
    Option String :=
  match fs with
  | [] =>
    if meta.options.required then
      some ("No files uploaded for field: " ++ fieldNameOf meta)
    else none
  | f :: rest =>
    if meta.isArray then
      match cardError meta.options (f :: rest).length (fieldNameOf meta) with
      | some e => some e
      | none => filesError meta.options (f :: rest)
    else filesError meta.options (f :: rest)

/-- Modelled from the spec: the first violated rule of the first violating
field, in declaration order, reading every field from the original request
(no mutation). -/
def firstViolation : List FileFieldMetadata → FileMap → Option String
  | [], _ => none
  | meta :: rest, m =>
    match fieldViolation meta (m.get (fieldNameOf meta)).filesList with
    | some e => some e
    | none => firstViolation rest m

/-- The normalized shape a successfully processed field's entry ends up in:
first file for a scalar field with files, empty array / absent value for an
empty field, the raw array for an array field with files. -/
def normalizedValue (meta : FileFieldMetadata) : FieldValue → FieldValue
  | .files (f :: fs) => if meta.isArray then .files (f :: fs) else .single f
  | _ => if meta.isArray then .files [] else .absent

/-- Modelled from the spec: an **anchored** literal pattern, matching exactly
the literal value (what the spec says a string pattern is compiled to). -/
def anchoredLitTest (pat mime : String) : Bool := pat == mime

/-! ## `AsyncResolver` and the tasks queued by `IsEntity`
(src/decorators.ts lines 15–27 and 54–75)

A settled promise is `fulfilled` or `rejected`; `then`/`catch` follow the
JavaScript chaining rules (a rejected input skips the `then` callback; the
`catch` handler's return value fulfils the resulting promise). -/

/-- A settled JavaScript promise. -/
inductive JsResult (α : Type) where
  | fulfilled (a : α)
  | rejected (e : String)
deriving DecidableEq

/-- `p.then(f)`; `f` may itself reject (modelling a throwing callback). -/
def jsThen {α β : Type} (p : JsResult α) (f : α → JsResult β) : JsResult β :=
  match p with
  | .fulfilled a => f a
  | .rejected e => .rejected e

/-- `p.catch(h)`; the handler in `IsEntity` logs and returns `undefined`,
fulfilling the chain. -/
def jsCatch {α : Type} (p : JsResult α) (h : String → JsResult α) : JsResult α :=
  match p with
  | .fulfilled a => .fulfilled a
  | .rejected e => h e

/-- The task `IsEntity` queues for a promise-valued type reference:

```ts
const task = referenceType.then(type => { ...decorate... })
  .catch(err => { console.error("Error resolving type...", err); });
AsyncResolver.addTask(task);
```

`thenCb` is the decoration callback (it may reject). -/
def isEntityTask {α : Type} (p : JsResult α) (thenCb : α → JsResult Unit) :
    JsResult Unit :=
  jsCatch (jsThen p thenCb) (fun _ => .fulfilled ())

/-- `Promise.all`: the first rejection, in list order, rejects the batch;
otherwise fulfilled. -/
def promiseAll : List (JsResult Unit) → JsResult (List Unit)
  | [] => .fulfilled []
  | t :: ts =>
    match t with
    | .rejected e => .rejected e
    | .fulfilled a =>
      match promiseAll ts with
      | .rejected e => .rejected e
      | .fulfilled as => .fulfilled (a :: as)

/-- `AsyncResolver.resolveAll` (lines 22–26): await `Promise.all(tasks)` when
the list is non-empty; the returned promise is `void`. -/
def resolveAll (tasks : List (JsResult Unit)) : JsResult Unit :=
  if tasks.length > 0 then jsThen (promiseAll tasks) (fun _ => .fulfilled ())
  else .fulfilled ()

/-! ## `toSlug` (utils)

```ts
export function toSlug(str: string) {
    return str
        .trim()
        .replace(/([a-z])([A-Z])/g, "$1_$2")
        .replace(/([a-z])([A-Z])/g, "$1_$2")
        .replace(/[^a-zA-Z0-9_.]+/g, "_")
        .toUpperCase();
}
```

Each stage is modelled over the character list.  The global replace of
`([a-z])([A-Z])` scans left to right and resumes after each two-character
match; the class replace collapses every maximal run of characters outside
`[a-zA-Z0-9_.]` into one underscore; `toUpperCase` runs last, over characters
that the class replace has already confined to that ASCII class. -/

/-- `String.prototype.trim`: drop JavaScript whitespace from both ends. -/
def jsTrim (l : List Char) : List Char :=
  ((l.dropWhile wsChar).reverse.dropWhile wsChar).reverse

/-- One global pass of `.replace(/([a-z])([A-Z])/g, "$1_$2")`. -/
def camelStep : List Char → List Char
  | a :: b :: rest =>
    if isLowerC a && isUpperC b then a :: '_' :: b :: camelStep rest
    else a :: camelStep (b :: rest)
  | l => l

/-- Worker for the class replace; the flag records whether the previous
character belonged to the disallowed run currently being collapsed. -/
def classStepGo : Bool → List Char → List Char
  | _, [] => []
  | inRun, c :: rest =>
    if allowedChar c then c :: classStepGo false rest
    else if inRun then classStepGo true rest
    else '_' :: classStepGo true rest

/-- `.replace(/[^a-zA-Z0-9_.]+/g, "_")`. -/
def classStep (l : List Char) : List Char := classStepGo false l

/-- `toSlug` over a character list. -/
def toSlugList (l : List Char) : List Char :=
  (classStep (camelStep (camelStep (jsTrim l)))).map toUpperC

/-- `toSlug` itself. -/
def toSlug (s : String) : String := ⟨toSlugList s.data⟩

/-! ## Lemmas about the file container -/

theorem FileMap.get_set_self (m : FileMap) (k : String) (v : FieldValue) :
    (m.set k v).get k = v := by
  induction m with
  | nil => simp [FileMap.set, FileMap.get]
  | cons p rest ih =>
    obtain ⟨k', v'⟩ := p
    by_cases h : k' == k
    · simp [FileMap.set, h, FileMap.get]
    · simp only [FileMap.set, h, if_false, Bool.false_eq_true]
      simp only [FileMap.get, h, if_false, Bool.false_eq_true, ih]

theorem FileMap.get_set_ne (m : FileMap) (k k' : String) (v : FieldValue)
    (h : k ≠ k') : (m.set k v).get k' = m.get k' := by
  induction m with
  | nil =>
    simp only [FileMap.set, FileMap.get]
    simp [beq_eq_false_iff_ne.mpr h]
  | cons p rest ih =>
    obtain ⟨k0, v0⟩ := p
    by_cases h0 : k0 == k
    · have hk : k0 = k := by exact beq_iff_eq.mp h0
      subst hk
      simp [FileMap.set, FileMap.get, beq_eq_false_iff_ne.mpr h]
    · simp only [FileMap.set, h0, if_false, Bool.false_eq_true]
      by_cases h1 : k0 == k'
      · simp [FileMap.get, h1]
      · simp [FileMap.get, h1, ih]

theorem FileMap.allRaw_get_notSingle (m : FileMap) (h : m.allRaw = true)
    (k : String) : (m.get k).notSingle = true := by
  induction m with
  | nil => simp [FileMap.get, FieldValue.notSingle]
  | cons p rest ih =>
    obtain ⟨k', v'⟩ := p
    simp only [FileMap.allRaw, List.all_cons, Bool.and_eq_true] at h
    by_cases hk : k' == k
    · simp only [FileMap.get, hk, if_true]
      cases v' with
      | files fs => simp [FieldValue.notSingle]
      | single f => simp at h
      | absent => simp [FieldValue.notSingle]
    · simp only [FileMap.get, hk, if_false, Bool.false_eq_true]
      exact ih h.2

/-! ## Lemmas about one field step -/

/-- The error component of one field iteration agrees with the claim-side
per-field rule list, for any value the parser can have produced. -/
theorem stepField_snd (meta : FileFieldMetadata) (m : FileMap)
    (h : (m.get (fieldNameOf meta)).notSingle = true) :
    (stepField meta m).2 =
      fieldViolation meta (m.get (fieldNameOf meta)).filesList := by
  rcases hv : m.get (fieldNameOf meta) with fs | f | _
  · cases fs with
    | nil =>
      simp only [stepField, fieldViolation, hv, FieldValue.filesList]
      by_cases hr : meta.options.required <;>
        by_cases ha : meta.isArray <;> simp [hr, ha]
    | cons f fs' =>
      simp only [stepField, fieldViolation, hv, FieldValue.filesList]
      by_cases ha : meta.isArray
      · simp only [ha, if_true]
        cases cardError meta.options (f :: fs').length (fieldNameOf meta) <;> simp
      · simp [ha]
  · rw [hv] at h; simp [FieldValue.notSingle] at h
  · simp only [stepField, fieldViolation, hv, FieldValue.filesList]
    by_cases hr : meta.options.required <;>
      by_cases ha : meta.isArray <;> simp [hr, ha]

/-- One field iteration only ever writes the field's own key. -/
theorem stepField_fst_get (meta : FileFieldMetadata) (m : FileMap) (k : String)
    (hk : fieldNameOf meta ≠ k) :
    ((stepField meta m).1).get k = m.get k := by
  rcases hv : m.get (fieldNameOf meta) with fs | f | _
  · cases fs with
    | nil =>
      simp only [stepField, hv]
      by_cases hr : meta.options.required <;> by_cases ha : meta.isArray <;>
        simp [hr, ha, FileMap.get_set_ne _ _ _ _ hk]
    | cons f fs' =>
      simp only [stepField, hv]
      by_cases ha : meta.isArray
      · simp only [ha, if_true]
        cases cardError meta.options (f :: fs').length (fieldNameOf meta) <;> simp
      · simp [ha, FileMap.get_set_ne _ _ _ _ hk]
  · simp [stepField, hv]
  · simp only [stepField, hv]
    by_cases hr : meta.options.required <;> by_cases ha : meta.isArray <;>
      simp [hr, ha, FileMap.get_set_ne _ _ _ _ hk]

/-- After a field iteration that did not reject, the field's entry holds the
normalized shape of its original value. -/
theorem stepField_none_get (meta : FileFieldMetadata) (m : FileMap)
    (hns : (m.get (fieldNameOf meta)).notSingle = true)
    (h : (stepField meta m).2 = none) :
    ((stepField meta m).1).get (fieldNameOf meta) =
      normalizedValue meta (m.get (fieldNameOf meta)) := by
  rcases hv : m.get (fieldNameOf meta) with fs | f | _
  · cases fs with
    | nil =>
      simp only [stepField, hv] at h ⊢
      by_cases hr : meta.options.required
      · simp [hr] at h
      · by_cases ha : meta.isArray <;>
          simp [hr, ha, normalizedValue, FileMap.get_set_self]
    | cons f fs' =>
      simp only [stepField, hv] at h ⊢
      by_cases ha : meta.isArray
      · simp only [ha, if_true] at h ⊢
        cases hc : cardError meta.options (fs'.length + 1) (fieldNameOf meta) with
        | some e => simp [hc] at h
        | none => simp [hc, hv, normalizedValue, ha]
      · simp [ha, normalizedValue, FileMap.get_set_self]
  · rw [hv] at hns; simp [FieldValue.notSingle] at hns
  · simp only [stepField, hv] at h ⊢
    by_cases hr : meta.options.required
    · simp [hr] at h
    · by_cases ha : meta.isArray <;>
        simp [hr, ha, normalizedValue, FileMap.get_set_self]

/-- A required field examined while empty or missing makes the iteration
reject with the missing-field message. -/
theorem stepField_missing (meta : FileFieldMetadata) (m : FileMap)
    (hreq : meta.options.required = true)
    (hzero : m.get (fieldNameOf meta) = .files [] ∨
      m.get (fieldNameOf meta) = .absent) :
    stepField meta m =
      (m, some ("No files uploaded for field: " ++ fieldNameOf meta)) := by
  rcases hzero with hz | hz <;> simp [stepField, hz, hreq]

/-! ## Lemmas about the field loop -/

theorem runFields_append (pre rest : List FileFieldMetadata) (m : FileMap) :
    runFields (pre ++ rest) m =
      match runFields pre m with
      | (m₁, none) => runFields rest m₁
      | (m₁, some e) => (m₁, some e) := by
  induction pre generalizing m with
  | nil => simp [runFields]
  | cons meta pre' ih =>
    simp only [List.cons_append, runFields]
    cases hs : stepField meta m with
    | mk m' eo => cases eo <;> simp [ih]

/-- The loop never writes a key that is not one of the processed fields'
names. -/
theorem runFields_fst_get (fields : List FileFieldMetadata) (m : FileMap)
    (k : String) (hk : k ∉ fields.map fieldNameOf) :
    ((runFields fields m).1).get k = m.get k := by
  induction fields generalizing m with
  | nil => simp [runFields]
  | cons meta rest ih =>
    simp only [List.map_cons, List.mem_cons, not_or] at hk
    have hne : fieldNameOf meta ≠ k := fun h => hk.1 h.symm
    cases hs : stepField meta m with
    | mk m' eo =>
      have hm' : m'.get k = m.get k := by
        have := stepField_fst_get meta m k hne
        rw [hs] at this
        exact this
      cases eo with
      | some e => simp [runFields, hs, hm']
      | none => simp [runFields, hs, ih m' hk.2, hm']

/-- The loop's outcome is the first violated rule of the first violating
field, read off the original request, provided the declared names are
distinct and the container holds the parser's raw arrays.  Stated with two
maps that agree on the declared names so the induction can thread the
mutated container. -/
theorem runFields_snd_eq_firstViolation (fields : List FileFieldMetadata)
    (m mv : FileMap)
    (hagree : ∀ meta ∈ fields, m.get (fieldNameOf meta) = mv.get (fieldNameOf meta))
    (hns : ∀ meta ∈ fields, (m.get (fieldNameOf meta)).notSingle = true)
    (hnodup : (fields.map fieldNameOf).Nodup) :
    (runFields fields m).2 = firstViolation fields mv := by
  induction fields generalizing m with
  | nil => simp [runFields, firstViolation]
  | cons meta rest ih =>
    have hm := hagree meta (List.mem_cons_self _ _)
    have hns0 := hns meta (List.mem_cons_self _ _)
    have hstep := stepField_snd meta m hns0
    simp only [List.map_cons, List.nodup_cons] at hnodup
    cases hsf : stepField meta m with
    | mk m' eo =>
      rw [hsf] at hstep
      cases eo with
      | some e =>
        simp only [runFields, hsf, firstViolation, ← hm, ← hstep]
      | none =>
        simp only [runFields, hsf, firstViolation, ← hm, ← hstep]
        apply ih m'
        · intro meta' hmem
          have hne : fieldNameOf meta ≠ fieldNameOf meta' := by
            intro hcontra
            exact hnodup.1 (hcontra ▸ List.mem_map_of_mem fieldNameOf hmem)
          have hfr := stepField_fst_get meta m (fieldNameOf meta') hne
          rw [hsf] at hfr
          rw [hfr]
          exact hagree meta' (List.mem_cons_of_mem _ hmem)
        · intro meta' hmem
          have hne : fieldNameOf meta ≠ fieldNameOf meta' := by
            intro hcontra
            exact hnodup.1 (hcontra ▸ List.mem_map_of_mem fieldNameOf hmem)
          have hfr := stepField_fst_get meta m (fieldNameOf meta') hne
          rw [hsf] at hfr
          rw [hfr]
          exact hns meta' (List.mem_cons_of_mem _ hmem)
        · exact hnodup.2

/-- After an error-free run of the loop, every processed field's entry holds
its normalized shape. -/
theorem runFields_none_get (fields : List FileFieldMetadata) (m : FileMap)
    (hns : ∀ meta ∈ fields, (m.get (fieldNameOf meta)).notSingle = true)
    (hnodup : (fields.map fieldNameOf).Nodup)
    (hrun : (runFields fields m).2 = none)
    (meta : FileFieldMetadata) (hmem : meta ∈ fields) :
    ((runFields fields m).1).get (fieldNameOf meta) =
      normalizedValue meta (m.get (fieldNameOf meta)) := by
  induction fields generalizing m with
  | nil => simp at hmem
  | cons meta0 rest ih =>
    simp only [List.map_cons, List.nodup_cons] at hnodup
    cases hsf : stepField meta0 m with
    | mk m' eo =>
      cases eo with
      | some e => simp [runFields, hsf] at hrun
      | none =>
        have hrun' : (runFields rest m').2 = none := by
          simpa [runFields, hsf] using hrun
        rcases List.mem_cons.mp hmem with rfl | hmem'
        · have hget : m'.get (fieldNameOf meta) =
              normalizedValue meta (m.get (fieldNameOf meta)) := by
            have h1 := stepField_none_get meta m
              (hns meta (List.mem_cons_self _ _)) (by rw [hsf])
            rw [hsf] at h1
            exact h1
          have hfr := runFields_fst_get rest m' (fieldNameOf meta) hnodup.1
          simp only [runFields, hsf]
          rw [hfr, hget]
        · have hne : fieldNameOf meta0 ≠ fieldNameOf meta := by
            intro hcontra
            exact hnodup.1 (hcontra ▸ List.mem_map_of_mem fieldNameOf hmem')
          have hfr := stepField_fst_get meta0 m (fieldNameOf meta) hne
          rw [hsf] at hfr
          have := ih m' (fun meta'' hmem'' => by
            have hne'' : fieldNameOf meta0 ≠ fieldNameOf meta'' := by
              intro hcontra
              exact hnodup.1 (hcontra ▸ List.mem_map_of_mem fieldNameOf hmem'')
            have hfr'' := stepField_fst_get meta0 m (fieldNameOf meta'') hne''
            rw [hsf] at hfr''
            rw [hfr'']
            exact hns meta'' (List.mem_cons_of_mem _ hmem''))
            hnodup.2 hrun' hmem'
          simp only [runFields, hsf]
          rw [this, hfr]

/-- The callback's outcome component is the loop's outcome whenever the
container is present. -/
theorem useMulterValidate_snd (fields : List FileFieldMetadata) (m : FileMap) :
    (useMulterValidate fields (some m)).2 = (runFields fields m).2 := by
  simp only [useMulterValidate]

/-- The callback's final container is the loop's container whenever the
container is present. -/
theorem useMulterValidate_fst (fields : List FileFieldMetadata) (m : FileMap) :
    (useMulterValidate fields (some m)).1 = some (runFields fields m).1 := by
  simp only [useMulterValidate]

/-! ## Lemmas about substring search -/

theorem leadsWith_append (p t : List Char) : leadsWith p (p ++ t) = true := by
  induction p with
  | nil => simp [leadsWith]
  | cons a as ih => simp [leadsWith, ih]

theorem containsSub_refl_append (p t : List Char) :
    containsSub p (p ++ t) = true := by
  cases p with
  | nil => cases t <;> simp [containsSub, leadsWith]
  | cons a as =>
    have h := leadsWith_append (a :: as) t
    simp only [List.cons_append] at h
    simp [containsSub, List.append_eq, h]

theorem containsSub_append_left (p pre l : List Char)
    (h : containsSub p l = true) : containsSub p (pre ++ l) = true := by
  induction pre with
  | nil => simpa using h
  | cons c pre' ih =>
    cases p with
    | nil => exact rfl
    | cons a as =>
      simp only [List.cons_append, containsSub, Bool.or_eq_true]
      exact Or.inr ih

/-- A literal occurring contiguously anywhere in the subject is found by the
un-anchored search. -/
theorem containsSub_of_infix (pre p post : List Char) :
    containsSub p (pre ++ p ++ post) = true := by
  rw [List.append_assoc]
  exact containsSub_append_left p pre _ (containsSub_refl_append p post)

/-! ## Lemmas about the promise batch -/

theorem isEntityTask_fulfilled {α : Type} (p : JsResult α)
    (cb : α → JsResult Unit) : isEntityTask p cb = .fulfilled () := by
  cases p with
  | rejected e => rfl
  | fulfilled a =>
    simp only [isEntityTask, jsThen]
    cases hcb : cb a with
    | fulfilled u => cases u; rfl
    | rejected e => rfl

theorem promiseAll_all_fulfilled (ts : List (JsResult Unit))
    (h : ∀ t ∈ ts, t = .fulfilled ()) :
    promiseAll ts = .fulfilled (ts.map (fun _ => ())) := by
  induction ts with
  | nil => rfl
  | cons t ts' ih =>
    have ht := h t (List.mem_cons_self _ _)
    subst ht
    simp only [promiseAll, ih (fun t' h' => h t' (List.mem_cons_of_mem _ h')),
      List.map_cons]

/-! ## Lemmas about `toSlug` -/

/-- The alphabet `toSlug`'s output lives in: ASCII uppercase, digits,
underscore, dot. -/
def slugChar (c : Char) : Bool :=
  isUpperC c || isDigitC c || c.toNat == 95 || c.toNat == 46

theorem slugChar_props (c : Char) (h : slugChar c = true) :
    isLowerC c = false ∧ wsChar c = false ∧ allowedChar c = true ∧
      toUpperC c = c := by
  have h' : (65 ≤ c.toNat ∧ c.toNat ≤ 90) ∨ (48 ≤ c.toNat ∧ c.toNat ≤ 57) ∨
      c.toNat = 95 ∨ c.toNat = 46 := by
    simpa [slugChar, isUpperC, isDigitC, Bool.or_eq_true, Bool.and_eq_true,
      decide_eq_true_eq, or_assoc] using h
  have hlow : isLowerC c = false := by
    simp only [isLowerC, Bool.and_eq_false_iff, decide_eq_false_iff_not]
    omega
  refine ⟨hlow, ?_, ?_, ?_⟩
  · simp only [wsChar, Bool.or_eq_false_iff, beq_eq_false_iff_ne, ne_eq,
      Bool.and_eq_false_iff, decide_eq_false_iff_not]
    omega
  · simp only [allowedChar, isLowerC, isUpperC, isDigitC, Bool.or_eq_true,
      Bool.and_eq_true, decide_eq_true_eq, beq_iff_eq]
    omega
  · simp [toUpperC, hlow]

theorem toUpperC_slug_of_allowed (c : Char) (h : allowedChar c = true) :
    slugChar (toUpperC c) = true := by
  by_cases hl : isLowerC c = true
  · have h97 : 97 ≤ c.toNat ∧ c.toNat ≤ 122 := by
      simpa [isLowerC, Bool.and_eq_true, decide_eq_true_eq] using hl
    have hv : (c.toNat - 32).isValidChar := Or.inl (by omega)
    have htn : (Char.ofNat (c.toNat - 32)).toNat = c.toNat - 32 := by
      simp only [Char.ofNat, dif_pos hv]; rfl
    simp only [toUpperC, hl, if_true]
    simp only [slugChar, isUpperC, isDigitC, htn, Bool.or_eq_true,
      Bool.and_eq_true, decide_eq_true_eq, beq_iff_eq]
    omega
  · have hl' : isLowerC c = false := by simpa using hl
    have h97 : ¬(97 ≤ c.toNat ∧ c.toNat ≤ 122) := by
      intro hcontra
      exact hl (by
        simp only [isLowerC, Bool.and_eq_true, decide_eq_true_eq]
        exact hcontra)
    have hall : (97 ≤ c.toNat ∧ c.toNat ≤ 122) ∨ (65 ≤ c.toNat ∧ c.toNat ≤ 90) ∨
        (48 ≤ c.toNat ∧ c.toNat ≤ 57) ∨ c.toNat = 95 ∨ c.toNat = 46 := by
      simpa [allowedChar, isLowerC, isUpperC, isDigitC, Bool.or_eq_true,
        Bool.and_eq_true, decide_eq_true_eq, beq_iff_eq, or_assoc] using h
    simp only [toUpperC, hl', Bool.false_eq_true, if_false]
    simp only [slugChar, isUpperC, isDigitC, Bool.or_eq_true, Bool.and_eq_true,
      decide_eq_true_eq, beq_iff_eq]
    omega

theorem classStepGo_allowed (b : Bool) (l : List Char) :
    ∀ c ∈ classStepGo b l, allowedChar c = true := by
  induction l generalizing b with
  | nil => intro c hc; simp [classStepGo] at hc
  | cons d rest ih =>
    intro c hc
    by_cases hd : allowedChar d
    · simp only [classStepGo, hd, if_true] at hc
      rcases List.mem_cons.mp hc with rfl | hc'
      · exact hd
      · exact ih false c hc'
    · have hd' : allowedChar d = false := by simpa using hd
      cases b with
      | true =>
        simp only [classStepGo, hd', Bool.false_eq_true, if_false, if_true] at hc
        exact ih true c hc
      | false =>
        simp only [classStepGo, hd', Bool.false_eq_true, if_false] at hc
        rcases List.mem_cons.mp hc with rfl | hc'
        · decide
        · exact ih true c hc'

theorem toSlugList_slug (l : List Char) :
    ∀ c ∈ toSlugList l, slugChar c = true := by
  intro c hc
  simp only [toSlugList, classStep, List.mem_map] at hc
  obtain ⟨d, hd, rfl⟩ := hc
  exact toUpperC_slug_of_allowed d (classStepGo_allowed false _ d hd)

theorem dropWhile_eq_self_of_false (p : Char → Bool) (l : List Char)
    (h : ∀ c ∈ l, p c = false) : l.dropWhile p = l := by
  cases l with
  | nil => rfl
  | cons c rest => simp [List.dropWhile_cons, h c (List.mem_cons_self _ _)]

theorem jsTrim_eq_self (l : List Char) (h : ∀ c ∈ l, wsChar c = false) :
    jsTrim l = l := by
  unfold jsTrim
  rw [dropWhile_eq_self_of_false wsChar l h]
  rw [dropWhile_eq_self_of_false wsChar l.reverse
    (fun c hc => h c (List.mem_reverse.mp hc))]
  exact List.reverse_reverse l

theorem camelStep_eq_self (l : List Char) (h : ∀ c ∈ l, isLowerC c = false) :
    camelStep l = l := by
  induction l using camelStep.induct with
  | case1 a b rest hab ih =>
    have := h a (List.mem_cons_self _ _)
    simp only [Bool.and_eq_true] at hab
    rw [hab.1] at this
    simp at this
  | case2 a b rest hab ih =>
    simp only [camelStep, hab, Bool.false_eq_true, if_false]
    rw [ih (fun c hc => h c (List.mem_cons_of_mem _ hc))]
  | case3 l h' => simp [camelStep]

theorem classStepGo_eq_self (b : Bool) (l : List Char)
    (h : ∀ c ∈ l, allowedChar c = true) : classStepGo b l = l := by
  induction l generalizing b with
  | nil => rfl
  | cons c rest ih =>
    simp only [classStepGo, h c (List.mem_cons_self _ _), if_true]
    rw [ih false (fun c' hc' => h c' (List.mem_cons_of_mem _ hc'))]

theorem map_toUpperC_eq_self (l : List Char) (h : ∀ c ∈ l, toUpperC c = c) :
    l.map toUpperC = l := by
  induction l with
  | nil => rfl
  | cons c rest ih =>
    simp only [List.map_cons, h c (List.mem_cons_self _ _),
      ih (fun c' hc' => h c' (List.mem_cons_of_mem _ hc'))]

theorem toSlugList_eq_self (l : List Char) (h : ∀ c ∈ l, slugChar c = true) :
    toSlugList l = l := by
  have hp := fun c hc => slugChar_props c (h c hc)
  unfold toSlugList classStep
  rw [jsTrim_eq_self l (fun c hc => (hp c hc).2.1)]
  rw [camelStep_eq_self l (fun c hc => (hp c hc).1)]
  rw [camelStep_eq_self l (fun c hc => (hp c hc).1)]
  rw [classStepGo_eq_self false l (fun c hc => (hp c hc).2.2.1)]
  rw [map_toUpperC_eq_self l (fun c hc => (hp c hc).2.2.2)]

/-! ## Helper lemmas for the cardinality bounds -/

theorem minFilesError_none_iff (opts : FileFieldOptions) (count : Nat)
    (name : String) :
    minFilesError opts count name = none ↔
      (∀ n, opts.minFiles = some n → n = 0 ∨ n ≤ count) := by
  cases hmin : opts.minFiles with
  | none => simp [minFilesError, hmin]
  | some a =>
    by_cases ha : (a != 0 && decide (count < a)) = true
    · simp only [minFilesError, hmin]
      rw [if_pos ha]
      simp only [Bool.and_eq_true, bne_iff_ne, ne_eq, decide_eq_true_eq] at ha
      constructor
      · intro h; exact absurd h (by simp)
      · intro h
        rcases h a rfl with h0 | hle
        · exact absurd h0 ha.1
        · exact absurd hle (by omega)
    · simp only [minFilesError, hmin]
      rw [if_neg ha]
      simp only [Bool.and_eq_true, bne_iff_ne, ne_eq, decide_eq_true_eq,
        not_and_or, not_not, not_lt] at ha
      simp only [true_iff]
      intro n hn
      cases hn
      exact ha

theorem maxFilesError_none_iff (opts : FileFieldOptions) (count : Nat)
    (name : String) :
    maxFilesError opts count name = none ↔
      (∀ n, opts.maxFiles = some n → n = 0 ∨ count ≤ n) := by
  cases hmax : opts.maxFiles with
  | none => simp [maxFilesError, hmax]
  | some b =>
    by_cases hb : (b != 0 && decide (b < count)) = true
    · simp only [maxFilesError, hmax]
      rw [if_pos hb]
      simp only [Bool.and_eq_true, bne_iff_ne, ne_eq, decide_eq_true_eq] at hb
      constructor
      · intro h; exact absurd h (by simp)
      · intro h
        rcases h b rfl with h0 | hle
        · exact absurd h0 hb.1
        · exact absurd hle (by omega)
    · simp only [maxFilesError, hmax]
      rw [if_neg hb]
      simp only [Bool.and_eq_true, bne_iff_ne, ne_eq, decide_eq_true_eq,
        not_and_or, not_not, not_lt] at hb
      simp only [true_iff]
      intro n hn
      cases hn
      exact hb

theorem cardError_none_split (opts : FileFieldOptions) (count : Nat)
    (name : String) :
    cardError opts count name = none ↔
      (minFilesError opts count name = none ∧
        maxFilesError opts count name = none) := by
  unfold cardError
  cases hm : minFilesError opts count name <;> simp

theorem cardError_too_few (opts : FileFieldOptions) (count : Nat)
    (name : String) (n : Nat) (hn : opts.minFiles = some n) (hn0 : n ≠ 0)
    (hlt : count < n) :
    cardError opts count name =
      some ("Too few files uploaded for '" ++ name ++ "'. Minimum number: "
        ++ toString n ++ ".") := by
  have hcond : (n != 0 && decide (count < n)) = true := by
    simp [bne_iff_ne, hn0, hlt]
  simp only [cardError, minFilesError, hn]
  rw [if_pos hcond]

theorem cardError_too_many (opts : FileFieldOptions) (count : Nat)
    (name : String) (n : Nat) (hn : opts.maxFiles = some n) (hn0 : n ≠ 0)
    (hlt : n < count)
    (hcons : ∀ a b, opts.minFiles = some a → opts.maxFiles = some b → a ≤ b) :
    cardError opts count name =
      some ("Too many files uploaded for '" ++ name ++ "'. Maximum number: "
        ++ toString n ++ ".") := by
  have hmin : minFilesError opts count name = none := by
    rw [minFilesError_none_iff]
    intro a ha
    have := hcons a n ha hn
    omega
  have hcond : (n != 0 && decide (n < count)) = true := by
    simp [bne_iff_ne, hn0, hlt]
  simp only [cardError, hmin, maxFilesError, hn]
  rw [if_pos hcond]

/-- The error component of one array-field iteration. -/
theorem stepField_array_snd (meta : FileFieldMetadata) (m : FileMap)
    (f : UploadedFile) (fs : List UploadedFile) (harr : meta.isArray = true)
    (hget : m.get (fieldNameOf meta) = .files (f :: fs)) :
    (stepField meta m).2 =
      (match cardError meta.options (f :: fs).length (fieldNameOf meta) with
        | some e => some e
        | none => filesError meta.options (f :: fs)) := by
  simp only [stepField, hget, harr, if_true]
  cases hc : cardError meta.options (f :: fs).length (fieldNameOf meta) with
  | some e =>
    simp only [List.length_cons] at hc
    simp [hc]
  | none =>
    simp only [List.length_cons] at hc
    simp [hc]

/-- The callback on a single declared field reduces to that field's step. -/
theorem useMulterValidate_single_snd (meta : FileFieldMetadata) (m : FileMap) :
    (useMulterValidate [meta] (some m)).2 = (stepField meta m).2 := by
  rw [useMulterValidate_snd]
  cases hs : stepField meta m with
  | mk m' eo => cases eo <;> simp [runFields, hs]

/-! ## Concrete fixtures used by counterexamples and witnesses -/

def wFileTiny : UploadedFile := ⟨"t.bin", "application/octet-stream", 5⟩
def wFileTxt : UploadedFile := ⟨"a.txt", "text/plain", 10⟩
def wFilePng2 : UploadedFile := ⟨"b.png", "image/png", 10⟩
def wFileWeird : UploadedFile := ⟨"w.bin", "ximage/pngy", 10⟩
def wFileTwo : UploadedFile := ⟨"a.bin", "x", 2⟩
def wFileK : UploadedFile := ⟨"k.bin", "x", 1024⟩

def wMetaAvatar : FileFieldMetadata := ⟨"avatar", false, { required := true }⟩
def wMetaMin10 : FileFieldMetadata := ⟨"bad", false, { minSize := some (.str "10") }⟩
def wMetaDoc : FileFieldMetadata :=
  ⟨"doc", false, { mimeTypes := some [.lit "text/plain"] }⟩
def wMetaPng : FileFieldMetadata :=
  ⟨"pic", false, { mimeTypes := some [.lit "image/png"] }⟩
def wMetaQ : FileFieldMetadata := ⟨"f", false, { maxSize := some (.str "1QB") }⟩
def wMetaArr0 : FileFieldMetadata := ⟨"arr", true, { maxFiles := some 0 }⟩
def wMetaArr25 : FileFieldMetadata :=
  ⟨"arr", true, { minFiles := some 2, maxFiles := some 5 }⟩
def wMetaK : FileFieldMetadata :=
  ⟨"kf", false, { minSize := some (.str "1KB"), maxSize := some (.str "1KB") }⟩
def wMetaNan : FileFieldMetadata :=
  ⟨"nf", false, { minSize := some (.str "junk"), maxSize := some (.str "gunk") }⟩

/-! ## Claim C1 -/

/-- C1 (counterexample): the claim fails as stated.  With the single
declared field required and zero files everywhere, an absent file container
makes the middleware skip validation and accept (`if (!req.files) return
next()`), and when an earlier declared field violates a rule, the outcome
is that earlier error rather than the missing-required message. -/
theorem required_missing_counterexample :
    useMulterValidate [wMetaAvatar] none = (none, none) ∧
    (useMulterValidate [wMetaMin10, wMetaAvatar]
        (some [("bad", .files [wFileTiny])])).2 =
      some "File t.bin is too small. Minimum size is 10." ∧
    (useMulterValidate [wMetaMin10, wMetaAvatar]
        (some [("bad", .files [wFileTiny])])).2 ≠
      some "No files uploaded for field: avatar" := by
  refine ⟨rfl, by decide, by decide⟩

/-- C1 (amended): when the request's file container is **present**, a
required declared field with zero files under its name is rejected with
`"No files uploaded for field: <fieldName>"` provided no field declared
before it violates any rule; the fields declared after it are irrelevant.
(The original claim also demanded this for an absent container and
regardless of earlier fields' violations; both fail, see the
counterexample.) -/
theorem required_missing_rejects (pre rest : List FileFieldMetadata)
    (meta : FileFieldMetadata) (m : FileMap)
    (hreq : meta.options.required = true)
    (hzero : m.get (fieldNameOf meta) = .files [] ∨
      m.get (fieldNameOf meta) = .absent)
    (hni : fieldNameOf meta ∉ pre.map fieldNameOf)
    (hpre : (runFields pre m).2 = none) :
    (useMulterValidate (pre ++ meta :: rest) (some m)).2 =
      some ("No files uploaded for field: " ++ fieldNameOf meta) := by
  rw [useMulterValidate_snd, runFields_append]
  cases hp : runFields pre m with
  | mk m₁ eo =>
    rw [hp] at hpre
    cases eo with
    | some e => simp at hpre
    | none =>
      have hm₁ : m₁.get (fieldNameOf meta) = m.get (fieldNameOf meta) := by
        have h2 := runFields_fst_get pre m (fieldNameOf meta) hni
        rw [hp] at h2
        exact h2
      have hstep := stepField_missing meta m₁ hreq (by rw [hm₁]; exact hzero)
      simp [runFields, hstep]

/-- C1 (witness). -/
theorem required_missing_rejects_witness :
    wMetaAvatar.options.required = true ∧
    (useMulterValidate [wMetaAvatar] (some [])).2 =
      some ("No files uploaded for field: " ++ fieldNameOf wMetaAvatar) :=
  ⟨rfl, required_missing_rejects [] [] wMetaAvatar [] rfl (Or.inr rfl)
    (by simp) rfl⟩

/-! ## Claim C2 -/

/-- C2 (counterexample): the claim fails as stated.  For a scalar field
receiving two files, the extra file beyond the first is still run through
the per-file checks: here the second file's MIME type violates the
allowlist and the request is rejected, even though the first file is
retained in the container. -/
theorem scalar_extras_counterexample :
    (useMulterValidate [wMetaDoc]
        (some [("doc", .files [wFileTxt, wFilePng2])])).2 =
      some "File b.png has invalid type (image/png). Allowed: /text\\/plain/." ∧
    (useMulterValidate [wMetaDoc]
        (some [("doc", .files [wFileTxt, wFilePng2])])).1 =
      some [("doc", .single wFileTxt)] := by
  refine ⟨by decide, by decide⟩

/-- C2 (amended): for a scalar declared field with files present, exactly
the first received file is written back under the field's name, but the
per-file size and MIME checks still range over **all** received files
(`for (const file of files)` iterates the original array), so an extra
file can cause rejection; only when every received file passes is the
request accepted with the extras silently dropped. -/
theorem scalar_first_retained (meta : FileFieldMetadata) (m : FileMap)
    (f : UploadedFile) (fs : List UploadedFile)
    (hscalar : meta.isArray = false)
    (hget : m.get (fieldNameOf meta) = .files (f :: fs)) :
    useMulterValidate [meta] (some m) =
      (some (m.set (fieldNameOf meta) (.single f)),
        filesError meta.options (f :: fs)) := by
  have hstep : stepField meta m =
      (m.set (fieldNameOf meta) (.single f), filesError meta.options (f :: fs)) := by
    simp [stepField, hget, hscalar]
  cases he : filesError meta.options (f :: fs) with
  | some e => simp [useMulterValidate, runFields, hstep, he]
  | none => simp [useMulterValidate, runFields, hstep, he]

/-- C2 (witness). -/
theorem scalar_first_retained_witness :
    wMetaDoc.isArray = false ∧
    useMulterValidate [wMetaDoc] (some [("doc", .files [wFileTxt, wFilePng2])]) =
      (some (FileMap.set [("doc", FieldValue.files [wFileTxt, wFilePng2])]
          (fieldNameOf wMetaDoc) (.single wFileTxt)),
        filesError wMetaDoc.options [wFileTxt, wFilePng2]) :=
  ⟨rfl, scalar_first_retained wMetaDoc
    [("doc", FieldValue.files [wFileTxt, wFilePng2])] wFileTxt [wFilePng2]
    rfl (by decide)⟩

/-! ## Claim C3 -/

/-- C3 (counterexample): the claim fails as stated.  The literal pattern
`"image/png"` is compiled without anchors, so the MIME type
`"ximage/pngy"`, which merely contains the literal as a substring, passes
the check and the whole request is accepted — while the anchored test the
spec describes rejects it. -/
theorem mime_anchoring_counterexample :
    (useMulterValidate [wMetaPng] (some [("pic", .files [wFileWeird])])).2 =
      none ∧
    anchoredLitTest "image/png" "ximage/pngy" = false := by
  refine ⟨by decide, by decide⟩

/-- C3 (amended): a literal string pattern is compiled into an
**un-anchored** regular expression, so it matches whenever the literal
occurs contiguously anywhere inside the declared MIME type (in particular
a MIME type containing the literal as a substring passes); a retained file
passes the check precisely when at least one pattern's expression matches
its MIME type. -/
theorem mime_unanchored (s pre post : String) (opts : FileFieldOptions)
    (pats : List MimePattern) (f : UploadedFile)
    (hpats : opts.mimeTypes = some pats) (hne : pats ≠ []) :
    (MimePattern.lit s).test (pre ++ s ++ post) = true ∧
    (mimeError opts f = none ↔
      pats.any (fun p => p.test f.mimetype) = true) := by
  constructor
  · simp only [MimePattern.test]
    have hdata : (pre ++ s ++ post).data = pre.data ++ s.data ++ post.data := by
      simp
    rw [hdata]
    exact containsSub_of_infix pre.data s.data post.data
  · have hlen : pats.length > 0 := List.length_pos.mpr hne
    simp only [mimeError, hpats]
    rw [if_pos hlen]
    cases ha : pats.any (fun p => p.test f.mimetype) <;> simp [ha]

/-- C3 (witness). -/
theorem mime_unanchored_witness :
    wMetaPng.options.mimeTypes = some [MimePattern.lit "image/png"] ∧
    (MimePattern.lit "image/png").test ("x" ++ "image/png" ++ "y") = true ∧
    (mimeError wMetaPng.options wFileWeird = none ↔
      ([MimePattern.lit "image/png"]).any
        (fun p => p.test wFileWeird.mimetype) = true) :=
  ⟨rfl,
    (mime_unanchored "image/png" "x" "y" wMetaPng.options
      [MimePattern.lit "image/png"] wFileWeird rfl (List.cons_ne_nil _ _)).1,
    (mime_unanchored "image/png" "x" "y" wMetaPng.options
      [MimePattern.lit "image/png"] wFileWeird rfl (List.cons_ne_nil _ _)).2⟩

/-! ## Claim C4 -/

/-- C4 (counterexample): the claim fails as stated.  The size string
`"1QB"` has an unrecognized unit, yet `parseFileSize` raises no
configuration-time error: `bytes` falls back to `parseInt` and yields 1
byte, and at validation time a 2-byte file is rejected as too large — a
per-request outcome caused by an unparsable size string. -/
theorem size_unit_counterexample :
    bytesParse "1QB" = some 1 ∧
    (useMulterValidate [wMetaQ] (some [("f", .files [wFileTwo])])).2 =
      some "File a.bin is too large. Maximum size is 1QB." := by
  refine ⟨by decide, by decide⟩

/-- C4 (amended): an unparsable size bound never raises a fatal
configuration-time error.  A bound string with no leading number parses to
`NaN` (`none`), and then both size checks silently pass every file at
validation time; a bound string with leading digits but an unrecognized
unit parses to that digit count in bytes (see the counterexample, where
`"1QB"` is enforced as 1 byte per-request). -/
theorem size_unit_no_fatal (opts : FileFieldOptions) (f : UploadedFile)
    (s t : String)
    (hmin : opts.minSize = some (.str s)) (hmax : opts.maxSize = some (.str t))
    (hs : bytesParse s = none) (ht : bytesParse t = none) :
    minSizeError opts f = none ∧ maxSizeError opts f = none ∧
    parseFileSize (.str "1QB") = some 1 := by
  refine ⟨?_, ?_, by decide⟩
  · simp only [minSizeError, hmin]
    by_cases htr : (SizeVal.str s).truthy = true
    · rw [if_pos htr]
      simp [parseFileSize, hs, ltNan]
    · rw [if_neg (by simpa using htr)]
  · simp only [maxSizeError, hmax]
    by_cases htr : (SizeVal.str t).truthy = true
    · rw [if_pos htr]
      simp [parseFileSize, ht, gtNan]
    · rw [if_neg (by simpa using htr)]

/-- C4 (witness). -/
theorem size_unit_no_fatal_witness :
    wMetaNan.options.minSize = some (.str "junk") ∧
    bytesParse "junk" = none ∧
    minSizeError wMetaNan.options wFileTwo = none ∧
    maxSizeError wMetaNan.options wFileTwo = none ∧
    parseFileSize (.str "1QB") = some 1 := by
  have h := size_unit_no_fatal wMetaNan.options wFileTwo "junk" "gunk" rfl rfl
    (by decide) (by decide)
  exact ⟨rfl, by decide, h.1, h.2.1, h.2.2⟩

/-! ## Claim C5 -/

/-- C5: when the container is present, the middleware's outcome is exactly
the first violated rule (missing-required; array cardinality min then max;
then per-file size-min, size-max, MIME in file order) of the first
declared field, in declaration order, that violates any rule — read off
the original request; violations of later fields or files are never
reported.  Stated for raw parser output and distinct declared names (the
only configurations the parser hands to the loop). -/
theorem validation_first_violation (fields : List FileFieldMetadata)
    (m : FileMap) (hraw : m.allRaw = true)
    (hnodup : (fields.map fieldNameOf).Nodup) :
    (useMulterValidate fields (some m)).2 = firstViolation fields m := by
  rw [useMulterValidate_snd]
  exact runFields_snd_eq_firstViolation fields m m (fun _ _ => rfl)
    (fun meta _ => FileMap.allRaw_get_notSingle m hraw _) hnodup

/-- C5 (witness): the first declared field passes, the second violates
missing-required, and the middleware reports exactly that first
violation. -/
theorem validation_first_violation_witness :
    (([wMetaPng, wMetaAvatar].map fieldNameOf).Nodup) ∧
    (FileMap.allRaw [("pic", .files [wFileWeird])] = true) ∧
    (useMulterValidate [wMetaPng, wMetaAvatar]
        (some [("pic", .files [wFileWeird])])).2 =
      firstViolation [wMetaPng, wMetaAvatar] [("pic", .files [wFileWeird])] ∧
    firstViolation [wMetaPng, wMetaAvatar] [("pic", .files [wFileWeird])] =
      some "No files uploaded for field: avatar" :=
  ⟨by decide, by decide,
    validation_first_violation [wMetaPng, wMetaAvatar]
      [("pic", .files [wFileWeird])] (by decide) (by decide),
    by decide⟩

/-! ## Claim C6 -/

/-- C6 (counterexample): the claim fails as stated.  With `maxFiles` set to
`0` and one file present for the array field, the claimed rule demands a
"too many files" rejection (0 is set and 1 > 0), but `0` is falsy in the
guard `meta.options.maxFiles && ...`, so the bound is skipped and the
request is accepted. -/
theorem cardinality_zero_bound_counterexample :
    wMetaArr0.options.maxFiles = some 0 ∧
    useMulterValidate [wMetaArr0] (some [("arr", .files [wFileTwo])]) =
      (some [("arr", .files [wFileTwo])], none) := by
  refine ⟨rfl, by decide⟩

/-- C6 (amended): for an array field with files present (and consistent
bounds), the request is rejected with "too few files" exactly when
`minFiles` is set **non-zero** and the count is strictly below it, and with
"too many files" exactly when `maxFiles` is set **non-zero** and the count
is strictly above it; counts equal to either bound pass, and an absent or
zero bound imposes no constraint. -/
theorem cardinality_bounds (meta : FileFieldMetadata) (m : FileMap)
    (f : UploadedFile) (fs : List UploadedFile)
    (harr : meta.isArray = true)
    (hget : m.get (fieldNameOf meta) = .files (f :: fs))
    (hcons : ∀ a b, meta.options.minFiles = some a →
      meta.options.maxFiles = some b → a ≤ b) :
    (∀ n, meta.options.minFiles = some n → n ≠ 0 → (f :: fs).length < n →
      (useMulterValidate [meta] (some m)).2 =
        some ("Too few files uploaded for '" ++ fieldNameOf meta
          ++ "'. Minimum number: " ++ toString n ++ ".")) ∧
    (∀ n, meta.options.maxFiles = some n → n ≠ 0 → n < (f :: fs).length →
      (useMulterValidate [meta] (some m)).2 =
        some ("Too many files uploaded for '" ++ fieldNameOf meta
          ++ "'. Maximum number: " ++ toString n ++ ".")) ∧
    (cardError meta.options (f :: fs).length (fieldNameOf meta) = none ↔
      ((∀ n, meta.options.minFiles = some n → n = 0 ∨ n ≤ (f :: fs).length) ∧
        (∀ n, meta.options.maxFiles = some n → n = 0 ∨ (f :: fs).length ≤ n))) := by
  refine ⟨?_, ?_, ?_⟩
  · intro n hn hn0 hlt
    rw [useMulterValidate_single_snd, stepField_array_snd meta m f fs harr hget,
      cardError_too_few meta.options (f :: fs).length (fieldNameOf meta) n hn hn0 hlt]
  · intro n hn hn0 hlt
    rw [useMulterValidate_single_snd, stepField_array_snd meta m f fs harr hget,
      cardError_too_many meta.options (f :: fs).length (fieldNameOf meta) n hn hn0 hlt hcons]
  · rw [cardError_none_split, minFilesError_none_iff, maxFilesError_none_iff]

/-- C6 (witness): with `minFiles = 2, maxFiles = 5`, one file is rejected as
too few, six files are rejected as too many, and counts 2 and 5 pass the
cardinality check. -/
theorem cardinality_bounds_witness :
    (useMulterValidate [wMetaArr25] (some [("arr", .files [wFileTwo])])).2 =
      some ("Too few files uploaded for '" ++ fieldNameOf wMetaArr25
        ++ "'. Minimum number: " ++ toString 2 ++ ".") ∧
    (useMulterValidate [wMetaArr25]
        (some [("arr", .files [wFileTwo, wFileTwo, wFileTwo, wFileTwo, wFileTwo,
          wFileTwo])])).2 =
      some ("Too many files uploaded for '" ++ fieldNameOf wMetaArr25
        ++ "'. Maximum number: " ++ toString 5 ++ ".") ∧
    cardError wMetaArr25.options 2 (fieldNameOf wMetaArr25) = none ∧
    cardError wMetaArr25.options 5 (fieldNameOf wMetaArr25) = none := by
  have hcons : ∀ a b, wMetaArr25.options.minFiles = some a →
      wMetaArr25.options.maxFiles = some b → a ≤ b := by
    intro a b ha hb
    have ha' : a = 2 := by
      have : (some 2 : Option Nat) = some a := ha
      exact (Option.some.injEq _ _ ▸ this).symm
    have hb' : b = 5 := by
      have : (some 5 : Option Nat) = some b := hb
      exact (Option.some.injEq _ _ ▸ this).symm
    omega
  refine ⟨?_, ?_, ?_, ?_⟩
  · exact (cardinality_bounds wMetaArr25 [("arr", .files [wFileTwo])] wFileTwo []
      rfl (by decide) hcons).1 2 rfl (by decide) (by decide)
  · exact (cardinality_bounds wMetaArr25
      [("arr", .files [wFileTwo, wFileTwo, wFileTwo, wFileTwo, wFileTwo, wFileTwo])]
      wFileTwo [wFileTwo, wFileTwo, wFileTwo, wFileTwo, wFileTwo]
      rfl (by decide) hcons).2.1 5 rfl (by decide) (by decide)
  · exact (cardinality_bounds wMetaArr25 [("arr", .files [wFileTwo, wFileTwo])]
      wFileTwo [wFileTwo] rfl (by decide) hcons).2.2.mpr
      (by
        constructor
        · intro n hn
          have : (some 2 : Option Nat) = some n := hn
          have hn2 : n = 2 := by
            injection this with h
            omega
          simp only [List.length_cons, List.length_nil]
          omega
        · intro n hn
          have : (some 5 : Option Nat) = some n := hn
          have hn5 : n = 5 := by
            injection this with h
            omega
          simp only [List.length_cons, List.length_nil]
          omega)
  · exact (cardinality_bounds wMetaArr25
      [("arr", .files [wFileTwo, wFileTwo, wFileTwo, wFileTwo, wFileTwo])]
      wFileTwo [wFileTwo, wFileTwo, wFileTwo, wFileTwo] rfl (by decide)
      hcons).2.2.mpr
      (by
        constructor
        · intro n hn
          have : (some 2 : Option Nat) = some n := hn
          have hn2 : n = 2 := by
            injection this with h
            omega
          simp only [List.length_cons, List.length_nil]
          omega
        · intro n hn
          have : (some 5 : Option Nat) = some n := hn
          have hn5 : n = 5 := by
            injection this with h
            omega
          simp only [List.length_cons, List.length_nil]
          omega)

/-! ## Claim C7 -/

/-- C7: `parseFileSize` returns a numeric input unchanged and parses the
string `"1KB"` to exactly 1024 bytes; and the size bounds are inclusive — a
retained file whose size equals the normalized `minSize` bound passes the
minimum check, and one whose size equals the normalized `maxSize` bound
passes the maximum check (only strictly smaller / strictly larger sizes
reject). -/
theorem size_bounds_inclusive (n : Int) (opts : FileFieldOptions)
    (f g : UploadedFile) (v w : SizeVal) (b c : Int)
    (hminv : opts.minSize = some v) (hb : parseFileSize v = some b)
    (hf : f.size = b)
    (hmaxw : opts.maxSize = some w) (hc : parseFileSize w = some c)
    (hg : g.size = c) :
    parseFileSize (.num n) = some n ∧
    parseFileSize (.str "1KB") = some 1024 ∧
    minSizeError opts f = none ∧
    maxSizeError opts g = none := by
  refine ⟨rfl, by decide, ?_, ?_⟩
  · simp only [minSizeError, hminv]
    by_cases htr : v.truthy = true
    · rw [if_pos htr]
      simp [hb, hf, ltNan]
    · rw [if_neg (by simpa using htr)]
  · simp only [maxSizeError, hmaxw]
    by_cases htr : w.truthy = true
    · rw [if_pos htr]
      simp [hc, hg, gtNan]
    · rw [if_neg (by simpa using htr)]

/-- C7 (witness): a 1024-byte file against `minSize = maxSize = "1KB"`. -/
theorem size_bounds_inclusive_witness :
    wMetaK.options.minSize = some (.str "1KB") ∧
    wMetaK.options.maxSize = some (.str "1KB") ∧
    parseFileSize (.str "1KB") = some 1024 ∧
    wFileK.size = 1024 ∧
    parseFileSize (.num 7) = some 7 ∧
    minSizeError wMetaK.options wFileK = none ∧
    maxSizeError wMetaK.options wFileK = none := by
  have h := size_bounds_inclusive 7 wMetaK.options wFileK wFileK
    (.str "1KB") (.str "1KB") 1024 1024 rfl (by decide) rfl rfl (by decide) rfl
  exact ⟨rfl, rfl, by decide, rfl, h.1, h.2.2.1, h.2.2.2⟩

/-! ## Claim C8 -/

/-- C8: every task queued by `IsEntity` resolves — a rejection of the
underlying type promise (or of the decoration callback) is caught by the
`.catch` handler, which logs and fulfils — so `AsyncResolver.resolveAll`
over any batch of `IsEntity` tasks never re-raises an individual failure:
the batch settles fulfilled no matter how many underlying promises
failed. -/
theorem resolveAll_swallows_failures {α : Type}
    (src : List (JsResult α × (α → JsResult Unit)))
    (p : JsResult α) (cb : α → JsResult Unit) :
    isEntityTask p cb = .fulfilled () ∧
    resolveAll (src.map (fun pc => isEntityTask pc.1 pc.2)) = .fulfilled () := by
  refine ⟨isEntityTask_fulfilled p cb, ?_⟩
  have hall : ∀ t ∈ src.map (fun pc => isEntityTask pc.1 pc.2),
      t = JsResult.fulfilled () := by
    intro t ht
    rcases List.mem_map.mp ht with ⟨pc, _, rfl⟩
    exact isEntityTask_fulfilled pc.1 pc.2
  unfold resolveAll
  by_cases hlen : (src.map (fun pc => isEntityTask pc.1 pc.2)).length > 0
  · rw [if_pos hlen, promiseAll_all_fulfilled _ hall]
    rfl
  · rw [if_neg hlen]

/-! ## Claim C9 -/

/-- C9: the write-back into `req.files` is not atomic on failure — whenever
the loop rejects, every field declared in an error-free prefix before the
failure has already been replaced by its normalized shape (first file for a
scalar field with files, empty array or absent value for an empty field),
and the rejection does not restore the parser's raw grouping. -/
theorem writeback_not_atomic (pre rest : List FileFieldMetadata)
    (m : FileMap) (e : String) (meta : FileFieldMetadata)
    (hraw : m.allRaw = true)
    (hnodup : ((pre ++ rest).map fieldNameOf).Nodup)
    (hpre : (runFields pre m).2 = none)
    (herr : (useMulterValidate (pre ++ rest) (some m)).2 = some e)
    (hmem : meta ∈ pre) :
    (useMulterValidate (pre ++ rest) (some m)).1 =
      some ((runFields (pre ++ rest) m).1) ∧
    ((runFields (pre ++ rest) m).1).get (fieldNameOf meta) =
      normalizedValue meta (m.get (fieldNameOf meta)) := by
  refine ⟨useMulterValidate_fst _ _, ?_⟩
  rw [List.map_append] at hnodup
  have hnodup_pre : (pre.map fieldNameOf).Nodup := hnodup.of_append_left
  have hdisj : (pre.map fieldNameOf).Disjoint (rest.map fieldNameOf) :=
    List.disjoint_of_nodup_append hnodup
  have hnorm := runFields_none_get pre m
    (fun meta' _ => FileMap.allRaw_get_notSingle m hraw _) hnodup_pre hpre
    meta hmem
  rw [runFields_append]
  cases hp : runFields pre m with
  | mk m₁ eo =>
    rw [hp] at hpre hnorm
    cases eo with
    | some e' => simp at hpre
    | none =>
      have hnotin : fieldNameOf meta ∉ rest.map fieldNameOf :=
        fun hmem' => hdisj (List.mem_map_of_mem fieldNameOf hmem) hmem'
      have hfr := runFields_fst_get rest m₁ (fieldNameOf meta) hnotin
      simp only
      rw [hfr]
      exact hnorm

/-- C9 (witness): the first field (scalar, one file, passes its checks) is
already collapsed to its first file when the second field's missing-required
rejection fires. -/
theorem writeback_not_atomic_witness :
    (useMulterValidate ([wMetaDoc] ++ [wMetaAvatar])
        (some [("doc", .files [wFileTxt])])).2 =
      some "No files uploaded for field: avatar" ∧
    ((runFields ([wMetaDoc] ++ [wMetaAvatar]) [("doc", .files [wFileTxt])]).1).get
        (fieldNameOf wMetaDoc) =
      normalizedValue wMetaDoc
        (FileMap.get [("doc", .files [wFileTxt])] (fieldNameOf wMetaDoc)) ∧
    normalizedValue wMetaDoc
        (FileMap.get [("doc", .files [wFileTxt])] (fieldNameOf wMetaDoc)) =
      .single wFileTxt :=
  ⟨by decide,
    (writeback_not_atomic [wMetaDoc] [wMetaAvatar] [("doc", .files [wFileTxt])]
      "No files uploaded for field: avatar" wMetaDoc (by decide) (by decide)
      (by decide) (by decide) (List.mem_singleton.mpr rfl)).2,
    by decide⟩

/-! ## Claim C10 -/

/-- C10: `toSlug` is idempotent — its output contains only uppercase ASCII
letters, digits, underscores and dots, and on such strings trimming, both
camel-case replaces, the class replace and uppercasing are all the
identity. -/
theorem toSlug_idempotent (s : String) : toSlug (toSlug s) = toSlug s := by
  show (⟨toSlugList (toSlugList s.data)⟩ : String) = ⟨toSlugList s.data⟩
  exact congrArg String.mk (toSlugList_eq_self _ (toSlugList_slug s.data))

end RCExtra
